import Mathlib

/-!
# Verification of the `engine_wrapper` command-dispatch core

A shallow embedding of the type-erasure/dispatch core of the repository:

* `command.h`   — the polymorphic `Command` contract,
* `wrapper.h`   — the generic adapter `Wrapper<T, ReturnType, Args...>`
                  binding one receiver method to named, type-erased arguments,
* `engine.h`    — the `Engine` registry (name → owned `Command`).

Modelling conventions:

* `std::any` becomes the tagged union `Value`; `typeid` names become the tag
  enumeration `Ty`; `std::any_cast<U>` succeeds exactly when the stored tag
  equals the requested tag, which mirrors `std::any` semantics for the closed
  set of value types the repository uses.
* The variadic template parameter pack `Args...` becomes the explicit list
  `Method.sig : List Ty`; the bound member function (together with the
  receiver object `T* object` it is invoked on) becomes
  `Method.run : σ → List Value → σ × Value` where `σ` is the receiver state.
  The C++ static type system guarantees the boxed result of the method has
  type `ReturnType`; that guarantee is the field `Method.run_ret`.
* Every `throw std::runtime_error(...)` becomes `Except.error` with a
  constructor of `Err` identifying the error kind and the data interpolated
  into the C++ message.
* Wrapper/Engine execution additionally returns the final receiver state and
  the number of invocations of the underlying native method, mirroring the
  C++ control flow: the single `method(object, ...)` call site is the only
  place the count is incremented and the state is threaded.
* `std::map` key order is immaterial to every property below, so the
  registry is a plain association list; `Engine` never stores a null
  `Command` (both `register_command` overloads reject null), so the
  null-entry guards of `has_command`/`get_command_list`/`command_count`
  are vacuous and the model omits them.
-/

set_option maxHeartbeats 1000000

namespace EngineWrapper

/-- Type tags: stable identifiers standing for the `typeid(U).name()` strings
the source stores in `paramTypes`/`returnTypeName`. -/
inductive Ty
  | tint
  | tstr
  | tbool
  deriving DecidableEq, Repr

/-- An erased value (`std::any`): a value of statically unknown type carrying
its runtime type tag. -/
inductive Value
  | vint (n : Int)
  | vstr (s : String)
  | vbool (b : Bool)
  deriving DecidableEq, Repr

/-- The runtime type tag carried by an erased value. -/
def Value.tag : Value → Ty
  | .vint _ => .tint
  | .vstr _ => .tstr
  | .vbool _ => .tbool

/-- The value produced by value-initialising a tuple slot
(`std::tuple<Args...> tupleArgs;` zero-initialises each element). -/
def Ty.defaultVal : Ty → Value
  | .tint => .vint 0
  | .tstr => .vstr ""
  | .tbool => .vbool false

/-- The error taxonomy.  In the source every error is a `std::runtime_error`
whose message identifies the kind; a raw `std::bad_any_cast` escaping from the
uncaught `std::any_cast` in `Wrapper::call`'s defaults-initialisation is
`badCast`.  Constructor arguments record the data interpolated into the C++
message text. -/
inductive Err
  | defaultsCountMismatch (expected : Nat)
  | defaultTypeMismatch (idx : Nat) (param : String)
  | badCast
  | duplicateArg (name : String)
  | missingArg (name : String)
  | typeMismatch (param : String) (expected : Ty)
  | emptyName
  | alreadyRegistered (name : String)
  | notFound (name : String)
  | nullObject
  | resultTypeMismatch (expected : Ty) (actual : Ty)
  deriving DecidableEq, Repr

instance {α β : Type} [DecidableEq α] [DecidableEq β] :
    DecidableEq (Except α β) := fun x y =>
  match x, y with
  | .error a, .error b =>
    if h : a = b then .isTrue (by rw [h])
    else .isFalse (fun hEq => h (by injection hEq))
  | .ok a, .ok b =>
    if h : a = b then .isTrue (by rw [h])
    else .isFalse (fun hEq => h (by injection hEq))
  | .error _, .ok _ => .isFalse (fun hEq => Except.noConfusion hEq)
  | .ok _, .error _ => .isFalse (fun hEq => Except.noConfusion hEq)

variable {σ : Type}

/-- A bound native method: the receiver `T* object` together with the member
function `ReturnType (T::*)(Args...)`.  `sig` is the pack `Args...` as tags,
`ret` is `ReturnType` as a tag, and `run` invokes the member function on the
receiver state, returning the updated state and the boxed result.  `run_ret`
is the C++ static guarantee that the boxed result has type `ReturnType`. -/
structure Method (σ : Type) where
  sig : List Ty
  ret : Ty
  run : σ → List Value → σ × Value
  run_ret : ∀ s vs, ((run s vs).2).tag = ret

/-- The adapter state after a successful construction: the bound method, the
`defaults` vector and the `paramNames` vector (the `paramTypes` vector and
`returnTypeName` are `meth.sig` and `meth.ret`). -/
structure Wrapper (σ : Type) where
  meth : Method σ
  defaults : List (String × Value)
  paramNames : List String

/-- The duplicate-name scan at the top of `Wrapper::execute`: walk the
argument vector keeping the multiset of names seen, and report the first name
whose count reaches two. -/
def findDup : List (String × Value) → List String → Option String
  | [], _ => none
  | a :: rest, seen =>
    if seen.contains a.1 then some a.1 else findDup rest (a.1 :: seen)

/-- A duplicate-free argument list (the duplicate scan finds nothing). -/
def dupFree (args : List (String × Value)) : Prop := findDup args [] = none

instance (args : List (String × Value)) : Decidable (dupFree args) := by
  unfold dupFree; infer_instance

/-- Synthesised parameter names `param1..paramN`
(`"param" + std::to_string(i + 1)`). -/
def autoNames (n : Nat) : List String :=
  (List.range n).map (fun i => "param" ++ Nat.repr (i + 1))

/-- `Wrapper::initParamInfo`: parameter names come from the defaults when they
are supplied (checking their count against the arity), and are synthesised as
`param1..paramN` otherwise. -/
def initParamInfo (sig : List Ty) (defaults : List (String × Value)) :
    Except Err (List String) :=
  if defaults.isEmpty then .ok (autoNames sig.length)
  else
    if defaults.length ≠ sig.length then .error (.defaultsCountMismatch sig.length)
    else .ok (defaults.map Prod.fst)

/-- One step of `Wrapper::validateDefaultsImpl`'s fold over the index
sequence: `std::any_cast` the default at each position to that position's
declared type, reporting the first mismatch. -/
def validateLoop (sig : List Ty) (names : List String)
    (defaults : List (String × Value)) : List Nat → Except Err Unit
  | [] => .ok ()
  | i :: rest =>
    match sig[i]?, defaults[i]? with
    | some t, some d =>
      if (d.2).tag = t then validateLoop sig names defaults rest
      else .error (.defaultTypeMismatch i (names.getD i ""))
    | _, _ => validateLoop sig names defaults rest

/-- `Wrapper::validateDefaultsImpl` over the whole index sequence. -/
def validateDefaults (sig : List Ty) (names : List String)
    (defaults : List (String × Value)) : Except Err Unit :=
  validateLoop sig names defaults (List.range sig.length)

/-- The `Wrapper` constructor (both overloads run the identical sequence):
null-receiver check, `initParamInfo`, then — when the arity is positive and
defaults were supplied — `validateDefaultsImpl`.  Any failure propagates and
no adapter value is produced (all-or-nothing construction). -/
def Wrapper.bind (m : Method σ) (objectPresent : Bool)
    (defaults : List (String × Value)) : Except Err (Wrapper σ) :=
  if objectPresent = false then .error .nullObject
  else
    match initParamInfo m.sig defaults with
    | .error e => .error e
    | .ok names =>
      if m.sig.length > 0 ∧ defaults.isEmpty = false then
        match validateDefaults m.sig names defaults with
        | .error e => .error e
        | .ok _ => .ok ⟨m, defaults, names⟩
      else .ok ⟨m, defaults, names⟩

/-- The defaults-initialisation loop at the top of `Wrapper::call`
(`std::get<Is>(tupleArgs) = std::any_cast<...>(defaults[Is].second)`, a fold
over the index sequence): build the initial tuple from the default values,
with an uncaught `bad_any_cast` (`badCast`) if a default does not have its
position's type (unreachable after a successful construction). -/
def initLoop (sig : List Ty) (defaults : List (String × Value)) :
    List Nat → Except Err (List Value)
  | [] => .ok []
  | i :: rest =>
    match sig[i]?, defaults[i]? with
    | some t, some d =>
      if (d.2).tag = t then
        match initLoop sig defaults rest with
        | .ok tl => .ok (d.2 :: tl)
        | .error e => .error e
      else .error .badCast
    | _, _ => .error .badCast

/-- The initial argument tuple of `Wrapper::call`: the value-initialised
`std::tuple<Args...>` when no defaults exist, otherwise the tuple of the
default values cast to their positional types. -/
def initDefaults (sig : List Ty) (defaults : List (String × Value)) :
    Except Err (List Value) :=
  if defaults.isEmpty then .ok (sig.map Ty.defaultVal)
  else initLoop sig defaults (List.range sig.length)

/-- `Wrapper::fillArg<I>`: if position `I` is within the parameter names,
search the argument vector (in order) for the first entry named
`paramNames[I]`; if found, cast it to the position's declared type (reporting
a type mismatch naming the parameter and the expected tag on failure) and
store it; if not found, report a missing argument unless defaults exist (a
default is already in the tuple). -/
def Wrapper.fillArg (w : Wrapper σ) (tuple : List Value)
    (args : List (String × Value)) (i : Nat) : Except Err (List Value) :=
  if h : i < w.paramNames.length then
    match args.find? (fun a => a.1 == w.paramNames.get ⟨i, h⟩) with
    | some a =>
      match w.meth.sig[i]? with
      | some t =>
        if (a.2).tag = t then .ok (tuple.set i a.2)
        else .error (.typeMismatch (w.paramNames.get ⟨i, h⟩) t)
      | none => .ok (tuple.set i a.2)
    | none =>
      if w.defaults.isEmpty then .error (.missingArg (w.paramNames.get ⟨i, h⟩))
      else .ok tuple
  else .ok tuple

/-- The fold `((fillArg<Is>(tupleArgs, args)), ...)` over the index sequence,
left to right, stopping at the first failure. -/
def Wrapper.fillLoop (w : Wrapper σ) (args : List (String × Value)) :
    List Value → List Nat → Except Err (List Value)
  | tuple, [] => .ok tuple
  | tuple, i :: rest =>
    match w.fillArg tuple args i with
    | .error e => .error e
    | .ok t => w.fillLoop args t rest

/-- `Wrapper::call`: the count-based required-argument pre-check (which
reports `paramNames[args.size()]` as missing whenever fewer arguments than
parameters arrive and no defaults exist), then defaults initialisation, then
the `fillArg` fold, and only then the single invocation of the bound
method. -/
def Wrapper.call (w : Wrapper σ) (s : σ) (args : List (String × Value)) :
    Except Err Value × σ × Nat :=
  if h : args.length < w.paramNames.length ∧ w.defaults.isEmpty = true then
    (.error (.missingArg (w.paramNames.get ⟨args.length, h.1⟩)), s, 0)
  else
    match initDefaults w.meth.sig w.defaults with
    | .error e => (.error e, s, 0)
    | .ok tuple0 =>
      match w.fillLoop args tuple0 (List.range w.meth.sig.length) with
      | .error e => (.error e, s, 0)
      | .ok tuple =>
        (.ok (w.meth.run s tuple).2, (w.meth.run s tuple).1, 1)

/-- `Wrapper::execute`: the duplicate-name scan, then either the direct
zero-arity invocation or `call`.  Returns the erased result (or the error),
the final receiver state, and the number of native invocations. -/
def Wrapper.execute (w : Wrapper σ) (s : σ) (args : List (String × Value)) :
    Except Err Value × σ × Nat :=
  match findDup args [] with
  | some d => (.error (.duplicateArg d), s, 0)
  | none =>
    if w.meth.sig.length = 0 then
      (.ok (w.meth.run s []).2, (w.meth.run s []).1, 1)
    else w.call s args

/-- `Wrapper::getParamNames`. -/
def Wrapper.getParamNames (w : Wrapper σ) : List String := w.paramNames

/-- `Wrapper::getParamTypes`. -/
def Wrapper.getParamTypes (w : Wrapper σ) : List Ty := w.meth.sig

/-- `Wrapper::getReturnType`. -/
def Wrapper.getReturnType (w : Wrapper σ) : Ty := w.meth.ret

/-- The value the first argument entry named `paramNames[i]` supplies for
position `i`, if any (the search loop of `fillArg`). -/
def Wrapper.suppliedAt (w : Wrapper σ) (args : List (String × Value))
    (i : Nat) : Option Value :=
  match w.paramNames[i]? with
  | none => none
  | some pname =>
    match args.find? (fun a => a.1 == pname) with
    | some a => some a.2
    | none => none

/-- The value sitting in the initial tuple at position `i`: the default value
when defaults exist, the value-initialised slot otherwise. -/
def Wrapper.tuple0At (w : Wrapper σ) (i : Nat) : Value :=
  if w.defaults.isEmpty then ((w.meth.sig[i]?).getD .tint).defaultVal
  else
    match w.defaults[i]? with
    | some d => d.2
    | none => .vint 0

/-- Position `i` is bound: a supplied argument of the declared type, or —
when nothing is supplied for it — a default set to fall back on. -/
def Wrapper.boundOk (w : Wrapper σ) (args : List (String × Value))
    (i : Nat) : Prop :=
  match w.suppliedAt args i with
  | some v => w.meth.sig[i]? = some v.tag
  | none => w.defaults.isEmpty = false

instance (w : Wrapper σ) (args : List (String × Value)) (i : Nat) :
    Decidable (w.boundOk args i) := by
  unfold Wrapper.boundOk; exact match w.suppliedAt args i with
  | some _ => by infer_instance
  | none => by infer_instance

/-- Whatever position `i` receives from the argument list narrows to its
declared tag (trivially true when nothing is supplied for it). -/
def Wrapper.suppliedOk (w : Wrapper σ) (args : List (String × Value))
    (i : Nat) : Prop :=
  match w.suppliedAt args i with
  | some v => w.meth.sig[i]? = some v.tag
  | none => True

instance (w : Wrapper σ) (args : List (String × Value)) (i : Nat) :
    Decidable (w.suppliedOk args i) := by
  unfold Wrapper.suppliedOk; exact match w.suppliedAt args i with
  | some _ => by infer_instance
  | none => by infer_instance

/-- The tuple of values the bound method is invoked with when every position
is bound: position-wise, the supplied argument when present, the position's
default otherwise. -/
def Wrapper.boundTuple (w : Wrapper σ) (args : List (String × Value)) :
    List Value :=
  (List.range w.meth.sig.length).map (fun i =>
    match w.suppliedAt args i with
    | some v => v
    | none => w.tuple0At i)

/-- What a successful construction guarantees about the adapter state
(established by `bind_wf` below): the name/type vectors are aligned with the
arity, names are the synthesised ones when no defaults exist, and a non-empty
default set covers every position with a correctly typed value. -/
structure Wf (w : Wrapper σ) : Prop where
  names_len : w.paramNames.length = w.meth.sig.length
  auto : w.defaults.isEmpty = true → w.paramNames = autoNames w.meth.sig.length
  def_len : w.defaults.isEmpty = false → w.defaults.length = w.meth.sig.length
  def_tags : ∀ (i : Nat) (t : Ty) (d : String × Value),
    w.meth.sig[i]? = some t → w.defaults[i]? = some d → (d.2).tag = t

/-- The `Engine` registry: the `name → owned Command` map.  The only
`Command` implementation in the core is `Wrapper`. -/
structure Engine (σ : Type) where
  commands : List (String × Wrapper σ)

/-- A freshly constructed `Engine`. -/
def Engine.empty : Engine σ := ⟨[]⟩

/-- `Engine::register_command(std::unique_ptr<Command>, name)`: reject an
empty name and a name already present, then take ownership. -/
def Engine.register_command (e : Engine σ) (name : String) (w : Wrapper σ) :
    Except Err (Engine σ) :=
  if name.isEmpty then .error .emptyName
  else if (e.commands.find? (fun p => p.1 == name)).isSome then
    .error (.alreadyRegistered name)
  else .ok ⟨e.commands ++ [(name, w)]⟩

/-- The templated `Engine::register_command` / `register_const_command`
overloads: the same empty-name and conflict checks, and only then the adapter
construction (so a conflicting name wins over any construction error). -/
def Engine.register_bind (e : Engine σ) (name : String) (m : Method σ)
    (objectPresent : Bool) (defaults : List (String × Value)) :
    Except Err (Engine σ) :=
  if name.isEmpty then .error .emptyName
  else if (e.commands.find? (fun p => p.1 == name)).isSome then
    .error (.alreadyRegistered name)
  else
    match Wrapper.bind m objectPresent defaults with
    | .error e2 => .error e2
    | .ok w => .ok ⟨e.commands ++ [(name, w)]⟩

/-- `Engine::execute`: empty-name check, lookup, delegate to the command. -/
def Engine.execute (e : Engine σ) (s : σ) (name : String)
    (args : List (String × Value)) : Except Err Value × σ × Nat :=
  if name.isEmpty then (.error .emptyName, s, 0)
  else
    match e.commands.find? (fun p => p.1 == name) with
    | none => (.error (.notFound name), s, 0)
    | some p => p.2.execute s args

/-- `Engine::execute_as<ResultType>`: run `execute`, then
`std::any_cast<ResultType>` the result; on a failed cast, look the command up
again and report the requested type together with its declared return
type. -/
def Engine.execute_as (e : Engine σ) (s : σ) (name : String)
    (args : List (String × Value)) (R : Ty) : Except Err Value × σ × Nat :=
  match e.execute s name args with
  | (.error err, s2, k) => (.error err, s2, k)
  | (.ok v, s2, k) =>
    if v.tag = R then (.ok v, s2, k)
    else
      let actual :=
        match e.commands.find? (fun p => p.1 == name) with
        | some p => p.2.getReturnType
        | none => v.tag
      (.error (.resultTypeMismatch R actual), s2, k)

/-- `Engine::has_command`: an empty name is `false` without error, otherwise
a membership test. -/
def Engine.has_command (e : Engine σ) (name : String) : Bool :=
  if name.isEmpty then false
  else (e.commands.find? (fun p => p.1 == name)).isSome

/-- `Engine::clear`. -/
def Engine.clear (_e : Engine σ) : Engine σ := ⟨[]⟩

/-- `Engine::get_command_list`. -/
def Engine.get_command_list (e : Engine σ) : List String :=
  e.commands.map Prod.fst

/-- `Engine::command_count`. -/
def Engine.command_count (e : Engine σ) : Nat := e.commands.length

/-- The registry invariant every reachable `Engine` state satisfies (the
fresh state has it and `register_command` / `register_bind` / `clear`
preserve it): keys are pairwise distinct and non-empty. -/
def Engine.Wf (e : Engine σ) : Prop :=
  (e.commands.map Prod.fst).Nodup ∧ ∀ p ∈ e.commands, (p.1).isEmpty = false

/-! ## Concrete fixtures

Concrete receivers/methods in the style of the test fixture `Subject`
(`f3(a, b) = a * b`, `f0() = 42`), used by the witnesses below. -/

/-- The integer stored in an erased value (`0` for the other variants; only
ever applied to values already checked to carry `tint`). -/
def Value.asInt : Value → Int
  | .vint n => n
  | _ => 0

/-- `int f3(int a, int b) { return a * b; }` on a stateless receiver. -/
def mulMethod : Method Unit where
  sig := [.tint, .tint]
  ret := .tint
  run := fun s vs => (s, .vint ((vs.getD 0 (.vint 0)).asInt * (vs.getD 1 (.vint 0)).asInt))
  run_ret := fun _ _ => rfl

/-- `int f0() { return 42; }` on a stateless receiver. -/
def f0Method : Method Unit where
  sig := []
  ret := .tint
  run := fun s _ => (s, .vint 42)
  run_ret := fun _ _ => rfl

/-- A mutating method on an `Int` counter receiver: increments the counter
and returns the old value. -/
def bumpMethod : Method Int where
  sig := [.tint]
  ret := .tint
  run := fun s vs => (s + 1, .vint (s + (vs.getD 0 (.vint 0)).asInt))
  run_ret := fun _ _ => rfl

/-- The adapter of Scenario B: `f(a, b) = a * b` with defaults
`{a:10, b:20}`. -/
def wDefaults : Wrapper Unit :=
  ⟨mulMethod, [("a", .vint 10), ("b", .vint 20)], ["a", "b"]⟩

/-- The adapter of Scenario C: `f(a, b) = a * b` with no defaults, so the
parameter names are synthesised as `param1`, `param2`. -/
def wNoDefaults : Wrapper Unit :=
  ⟨mulMethod, [], ["param1", "param2"]⟩

/-- The zero-arity adapter for `f0`. -/
def wZero : Wrapper Unit := ⟨f0Method, [], []⟩

/-- `f(a, b) = a * b` with full defaults named `param1`, `param2` (the
defaulted counterpart of `wNoDefaults`). -/
def wNamedDefaults : Wrapper Unit :=
  ⟨mulMethod, [("param1", .vint 10), ("param2", .vint 20)],
   ["param1", "param2"]⟩

/-- The mutating-counter adapter, no defaults. -/
def wBump : Wrapper Int := ⟨bumpMethod, [], ["param1"]⟩

/-- The registry of Scenario D after registering `cmd1` and `cmd2`. -/
def engineTwo : Engine Unit := ⟨[("cmd1", wZero), ("cmd2", wDefaults)]⟩

/-- Numeric value of a decimal digit character (used to read a rendered
decimal numeral back; not part of the source, only of the proofs about the
synthesised `param1..paramN` names). -/
def digitVal (c : Char) : Nat :=
  if c = '0' then 0 else if c = '1' then 1 else if c = '2' then 2 else
  if c = '3' then 3 else if c = '4' then 4 else if c = '5' then 5 else
  if c = '6' then 6 else if c = '7' then 7 else if c = '8' then 8 else 9

/-- Reading a list of decimal digit characters back into the number they
render, continuing from accumulator `a`. -/
def digitsVal (a : Nat) (l : List Char) : Nat :=
  l.foldl (fun a c => a * 10 + digitVal c) a

/-! ## Basic lemmas -/

theorem digitVal_digitChar {n : Nat} (h : n < 10) :
    digitVal (Nat.digitChar n) = n := by
  interval_cases n <;> rfl

theorem digitsVal_toDigitsCore (f : Nat) :
    ∀ (n : Nat) (l : List Char), n < 10 ^ f →
    digitsVal 0 (Nat.toDigitsCore 10 f n l) = digitsVal n l := by
  induction f with
  | zero =>
    intro n l h
    simp only [pow_zero, Nat.lt_one_iff] at h
    subst h
    rfl
  | succ f ih =>
    intro n l h
    have hm : n % 10 < 10 := Nat.mod_lt _ (by norm_num)
    by_cases h10 : n / 10 = 0
    · have hn10 : n < 10 := by omega
      simp only [Nat.toDigitsCore, h10, if_true]
      show digitsVal (0 * 10 + digitVal (Nat.digitChar (n % 10))) l = digitsVal n l
      rw [digitVal_digitChar hm]
      congr 1
      omega
    · have hdiv : n / 10 < 10 ^ f := by
        apply Nat.div_lt_of_lt_mul
        have hp : (10 : Nat) ^ (f + 1) = 10 * 10 ^ f := by ring
        omega
      simp only [Nat.toDigitsCore, h10, if_false]
      rw [ih (n / 10) (Nat.digitChar (n % 10) :: l) hdiv]
      show digitsVal (n / 10 * 10 + digitVal (Nat.digitChar (n % 10))) l = digitsVal n l
      rw [digitVal_digitChar hm]
      congr 1
      omega

theorem natRepr_injective : Function.Injective Nat.repr := by
  intro m n h
  have hdata : Nat.toDigits 10 m = Nat.toDigits 10 n := congrArg String.data h
  have hb : (1 : Nat) < 10 := by norm_num
  have hmlt : m < 10 ^ (m + 1) :=
    lt_of_lt_of_le (Nat.lt_pow_self hb m)
      (Nat.pow_le_pow_right (by norm_num) (Nat.le_succ m))
  have hnlt : n < 10 ^ (n + 1) :=
    lt_of_lt_of_le (Nat.lt_pow_self hb n)
      (Nat.pow_le_pow_right (by norm_num) (Nat.le_succ n))
  have hm : digitsVal 0 (Nat.toDigits 10 m) = m :=
    digitsVal_toDigitsCore (m + 1) m [] hmlt
  have hn : digitsVal 0 (Nat.toDigits 10 n) = n :=
    digitsVal_toDigitsCore (n + 1) n [] hnlt
  rw [← hm, ← hn, hdata]

theorem autoNames_nodup (n : Nat) : (autoNames n).Nodup := by
  unfold autoNames
  refine List.Nodup.map_on ?_ (List.nodup_range n)
  intro i _ j _ hEq
  have hdata := congrArg String.data hEq
  simp only [String.data_append] at hdata
  have h2 : (Nat.repr (i + 1)).data = (Nat.repr (j + 1)).data :=
    List.append_cancel_left hdata
  have h3 : Nat.repr (i + 1) = Nat.repr (j + 1) := by
    cases hr1 : Nat.repr (i + 1) with
    | mk d1 =>
      cases hr2 : Nat.repr (j + 1) with
      | mk d2 =>
        rw [hr1, hr2] at h2
        exact congrArg String.mk h2
  have := natRepr_injective h3
  omega

theorem autoNames_length (n : Nat) : (autoNames n).length = n := by
  simp [autoNames]

theorem autoNames_getElem (n i : Nat) (h : i < n) :
    (autoNames n)[i]? = some ("param" ++ Nat.repr (i + 1)) := by
  simp [autoNames, List.getElem?_range, h]

theorem findDup_none :
    ∀ {args : List (String × Value)} {seen : List String},
    findDup args seen = none →
    (args.map Prod.fst).Nodup ∧ ∀ x ∈ seen, x ∉ args.map Prod.fst := by
  intro args
  induction args with
  | nil => intro seen _; simp
  | cons a rest ih =>
    intro seen h
    rw [findDup] at h
    split at h
    next => simp at h
    next hc =>
      have hcm : a.1 ∉ seen := by simpa using hc
      obtain ⟨hnd, hs⟩ := ih h
      constructor
      · exact List.Nodup.cons (hs a.1 (List.mem_cons_self _ _)) hnd
      · intro x hx
        have hxs : x ∈ a.1 :: seen := List.mem_cons_of_mem _ hx
        have hne : x ≠ a.1 := fun hEq => hcm (hEq ▸ hx)
        simp only [List.map_cons, List.mem_cons]
        push_neg
        exact ⟨hne, hs x hxs⟩

theorem findDup_some :
    ∀ {args : List (String × Value)} {seen : List String} {d : String},
    findDup args seen = some d →
    d ∈ args.map Prod.fst ∧
      (d ∈ seen ∨ 2 ≤ (args.map Prod.fst).count d) := by
  intro args
  induction args with
  | nil => intro seen d h; simp [findDup] at h
  | cons a rest ih =>
    intro seen d h
    rw [findDup] at h
    split at h
    next hc =>
      obtain rfl : a.1 = d := by simpa using h
      refine ⟨List.mem_cons_self _ _, Or.inl ?_⟩
      simpa using hc
    next =>
      obtain ⟨hmem, hrest⟩ := ih h
      refine ⟨List.mem_cons_of_mem _ hmem, ?_⟩
      rcases hrest with hseen | hcount
      · rcases List.mem_cons.mp hseen with hEq | hseen'
        · have h1 : 0 < (rest.map Prod.fst).count d := List.count_pos_iff.mpr hmem
          subst hEq
          right
          simp only [List.map_cons, List.count_cons_self]
          omega
        · exact Or.inl hseen'
      · right
        simp only [List.map_cons]
        calc 2 ≤ (rest.map Prod.fst).count d := hcount
        _ ≤ ((a.1 :: rest.map Prod.fst)).count d := by
            rw [List.count_cons]
            omega

/-! ## Construction lemmas -/

theorem initParamInfo_ok {sig : List Ty} {ds : List (String × Value)}
    {names : List String} (h : initParamInfo sig ds = .ok names) :
    names.length = sig.length ∧
    (ds.isEmpty = true → names = autoNames sig.length) ∧
    (ds.isEmpty = false → ds.length = sig.length ∧ names = ds.map Prod.fst) := by
  unfold initParamInfo at h
  split at h
  next he =>
    obtain rfl : autoNames sig.length = names := by simpa using h
    refine ⟨autoNames_length _, fun _ => rfl, fun hne => ?_⟩
    rw [he] at hne
    cases hne
  next he =>
    have hne : ds.isEmpty = false := by
      cases hcase : ds.isEmpty
      · rfl
      · exact absurd hcase he
    split at h
    next => cases h
    next hlen =>
      obtain rfl : ds.map Prod.fst = names := by simpa using h
      push_neg at hlen
      refine ⟨by simpa using hlen, fun hemp => ?_, fun _ => ⟨hlen, rfl⟩⟩
      rw [hne] at hemp
      cases hemp

theorem validateLoop_ok {sig : List Ty} {names : List String}
    {ds : List (String × Value)} :
    ∀ {L : List Nat}, validateLoop sig names ds L = .ok () →
    ∀ i ∈ L, ∀ t d, sig[i]? = some t → ds[i]? = some d → (d.2).tag = t := by
  intro L
  induction L with
  | nil => intro _ i hi; cases hi
  | cons j rest ih =>
    intro h i hi t d hst hsd
    rw [validateLoop] at h
    rcases List.mem_cons.mp hi with rfl | hi'
    · rw [hst, hsd] at h
      simp only [] at h
      split at h
      next => assumption
      next => cases h
    · split at h
      · split at h
        next => exact ih h i hi' t d hst hsd
        next => cases h
      · exact ih h i hi' t d hst hsd

theorem bind_ok {m : Method σ} {op : Bool} {ds : List (String × Value)}
    {w : Wrapper σ} (h : Wrapper.bind m op ds = .ok w) :
    w.meth = m ∧ w.defaults = ds ∧
    w.paramNames.length = m.sig.length ∧
    (ds.isEmpty = true → w.paramNames = autoNames m.sig.length) ∧
    (ds.isEmpty = false → ds.length = m.sig.length ∧
      w.paramNames = ds.map Prod.fst) ∧
    (∀ (i : Nat) (t : Ty) (d : String × Value),
      m.sig[i]? = some t → ds[i]? = some d → (d.2).tag = t) := by
  unfold Wrapper.bind at h
  split at h
  next => cases h
  next =>
    cases hinfocase : initParamInfo m.sig ds with
    | error e => rw [hinfocase] at h; simp only [] at h; cases h
    | ok names =>
      rw [hinfocase] at h
      simp only [] at h
      obtain ⟨hlen, hauto, hdef⟩ := initParamInfo_ok hinfocase
      split at h
      next hcond =>
        cases hvalcase : validateDefaults m.sig names ds with
        | error e2 =>
          rw [hvalcase] at h
          simp only [] at h
          cases h
        | ok val =>
          rw [hvalcase] at h
          simp only [] at h
          obtain rfl : (⟨m, ds, names⟩ : Wrapper σ) = w := by
            simpa using h
          refine ⟨rfl, rfl, hlen, hauto, hdef, ?_⟩
          intro i t d hst hsd
          have hilt : i < m.sig.length := by
            by_contra hge
            rw [List.getElem?_eq_none (by omega)] at hst
            cases hst
          have hi : i ∈ List.range m.sig.length := List.mem_range.mpr hilt
          rw [validateDefaults] at hvalcase
          exact validateLoop_ok hvalcase i hi t d hst hsd
      next hcond =>
        obtain rfl : (⟨m, ds, names⟩ : Wrapper σ) = w := by
          simpa using h
        refine ⟨rfl, rfl, hlen, hauto, hdef, ?_⟩
        intro i t d hst hsd
        by_cases hemp : ds.isEmpty = true
        · rw [List.isEmpty_iff] at hemp
          subst hemp
          simp at hsd
        · have hemp2 : ds.isEmpty = false := by
            cases hcase : ds.isEmpty
            · rfl
            · exact absurd hcase hemp
          have hzero : m.sig.length = 0 := by
            by_contra hz
            exact hcond ⟨by omega, hemp2⟩
          rw [List.getElem?_eq_none (by omega)] at hst
          cases hst

theorem bind_wf {m : Method σ} {op : Bool} {ds : List (String × Value)}
    {w : Wrapper σ} (h : Wrapper.bind m op ds = .ok w) : Wf w := by
  obtain ⟨hm, hd, hlen, hauto, hdef, htags⟩ := bind_ok h
  subst hm
  subst hd
  exact ⟨hlen, hauto, fun hne => (hdef hne).1, htags⟩

/-! ## Defaults-initialisation lemmas -/

theorem initLoop_ok {sig : List Ty} {ds : List (String × Value)}
    (htags : ∀ (i : Nat) (t : Ty) (d : String × Value),
      sig[i]? = some t → ds[i]? = some d → (d.2).tag = t)
    (hlen : sig.length ≤ ds.length) :
    ∀ (L : List Nat), (∀ i ∈ L, i < sig.length) →
    initLoop sig ds L =
      .ok (L.map (fun i => ((ds[i]?).map Prod.snd).getD (.vint 0))) := by
  intro L
  induction L with
  | nil => intro _; rfl
  | cons j rest ih =>
    intro hmem
    have hj : j < sig.length := hmem j (List.mem_cons_self _ _)
    have hjd : j < ds.length := by omega
    have ht : sig[j]? = some sig[j] := List.getElem?_eq_getElem hj
    have hd : ds[j]? = some ds[j] := List.getElem?_eq_getElem hjd
    rw [initLoop, ht, hd]
    simp only []
    rw [if_pos (htags j sig[j] ds[j] ht hd)]
    rw [ih (fun i hi => hmem i (List.mem_cons_of_mem _ hi))]
    simp only [List.map_cons, hd, Option.map_some, Option.getD_some]
    rfl

theorem initDefaults_wf {w : Wrapper σ} (hw : Wf w) :
    initDefaults w.meth.sig w.defaults =
      .ok ((List.range w.meth.sig.length).map w.tuple0At) := by
  unfold initDefaults
  cases hemp : w.defaults.isEmpty
  · rw [if_neg (by simp [hemp])]
    rw [initLoop_ok hw.def_tags (le_of_eq (hw.def_len hemp).symm)
      (List.range w.meth.sig.length) (fun i hi => List.mem_range.mp hi)]
    congr 1
    apply List.map_congr_left
    intro i hi
    unfold Wrapper.tuple0At
    rw [if_neg (by simp [hemp])]
    cases hd : w.defaults[i]?
    · rfl
    · rfl
  · rw [if_pos (by simp [hemp])]
    congr 1
    apply List.ext_getElem?
    intro j
    rw [List.getElem?_map, List.getElem?_map]
    by_cases hj : j < w.meth.sig.length
    · rw [List.getElem?_eq_getElem hj, List.getElem?_range hj]
      show some (Ty.defaultVal (w.meth.sig.get ⟨j, hj⟩)) = some (w.tuple0At j)
      congr 1
      unfold Wrapper.tuple0At
      rw [if_pos (by simp [hemp]), List.getElem?_eq_getElem hj]
      rfl
    · rw [List.getElem?_eq_none (by omega),
        List.getElem?_eq_none (by rw [List.length_range]; omega)]
      rfl

/-! ## Argument-filling lemmas -/

theorem suppliedAt_eq {w : Wrapper σ} {args : List (String × Value)} {i : Nat}
    (hi : i < w.paramNames.length) :
    w.suppliedAt args i =
      (args.find? (fun a => a.1 == w.paramNames.get ⟨i, hi⟩)).map Prod.snd := by
  unfold Wrapper.suppliedAt
  rw [List.getElem?_eq_getElem hi]
  simp only []
  cases args.find? (fun a => a.1 == w.paramNames.get ⟨i, hi⟩) <;> rfl

theorem fillArg_ok {w : Wrapper σ} {args : List (String × Value)} {i : Nat}
    (tuple : List Value)
    (hi : i < w.paramNames.length)
    (hok : w.boundOk args i) :
    w.fillArg tuple args i =
      .ok (match w.suppliedAt args i with
           | some v => tuple.set i v
           | none => tuple) := by
  unfold Wrapper.fillArg
  rw [dif_pos hi, suppliedAt_eq hi]
  cases hfind : args.find? (fun a => a.1 == w.paramNames.get ⟨i, hi⟩) with
  | none =>
    simp only []
    have hne : w.defaults.isEmpty = false := by
      unfold Wrapper.boundOk at hok
      rw [suppliedAt_eq hi, hfind] at hok
      simpa using hok
    rw [if_neg (by simp [hne])]
    rfl
  | some a =>
    simp only []
    have htag : w.meth.sig[i]? = some (a.2).tag := by
      unfold Wrapper.boundOk at hok
      rw [suppliedAt_eq hi, hfind] at hok
      simpa using hok
    rw [htag]
    simp only []
    rw [if_pos trivial]
    rfl

theorem fillLoop_ok {w : Wrapper σ} {args : List (String × Value)}
    (hlen : w.paramNames.length = w.meth.sig.length) :
    ∀ (L : List Nat) (tuple : List Value), L.Nodup →
    tuple.length = w.meth.sig.length →
    (∀ i ∈ L, i < w.meth.sig.length ∧ w.boundOk args i) →
    ∃ T, w.fillLoop args tuple L = .ok T ∧ T.length = tuple.length ∧
      (∀ j, j ∉ L → T[j]? = tuple[j]?) ∧
      (∀ j ∈ L, T[j]? = match w.suppliedAt args j with
                        | some v => some v
                        | none => tuple[j]?) := by
  intro L
  induction L with
  | nil =>
    intro tuple _ _ _
    exact ⟨tuple, rfl, rfl, fun j _ => rfl, fun j hj => absurd hj (List.not_mem_nil j)⟩
  | cons i rest ih =>
    intro tuple hnd htl hmem
    obtain ⟨hilt, hibound⟩ := hmem i (List.mem_cons_self _ _)
    have hi : i < w.paramNames.length := by omega
    have hfa := fillArg_ok tuple hi hibound
    have hinotr : i ∉ rest := (List.nodup_cons.mp hnd).1
    cases hs : w.suppliedAt args i with
    | some v =>
      rw [hs] at hfa
      have hstep : w.fillLoop args tuple (i :: rest) =
          w.fillLoop args (tuple.set i v) rest := by
        rw [Wrapper.fillLoop, hfa]
      obtain ⟨T, hT, hTlen, hout, hin⟩ := ih (tuple.set i v)
        (List.nodup_cons.mp hnd).2
        (by rw [List.length_set]; exact htl)
        (fun j hj => hmem j (List.mem_cons_of_mem _ hj))
      refine ⟨T, hstep.trans hT, by rw [hTlen, List.length_set], ?_, ?_⟩
      · intro j hj
        have hji : i ≠ j := fun hEq => hj (hEq ▸ List.mem_cons_self _ _)
        have hjr : j ∉ rest := fun hr => hj (List.mem_cons_of_mem _ hr)
        rw [hout j hjr, List.getElem?_set_ne hji]
      · intro j hj
        rcases List.mem_cons.mp hj with rfl | hjr
        · rw [hout j hinotr, hs]
          simp only []
          rw [List.getElem?_set_self (by omega)]
        · rw [hin j hjr]
          cases hs2 : w.suppliedAt args j
          · simp only []
            have hji : i ≠ j := fun hEq => hinotr (hEq ▸ hjr)
            rw [List.getElem?_set_ne hji]
          · rfl
    | none =>
      rw [hs] at hfa
      have hstep : w.fillLoop args tuple (i :: rest) =
          w.fillLoop args tuple rest := by
        rw [Wrapper.fillLoop, hfa]
      obtain ⟨T, hT, hTlen, hout, hin⟩ := ih tuple
        (List.nodup_cons.mp hnd).2 htl
        (fun j hj => hmem j (List.mem_cons_of_mem _ hj))
      refine ⟨T, hstep.trans hT, hTlen, ?_, ?_⟩
      · intro j hj
        exact hout j (fun hr => hj (List.mem_cons_of_mem _ hr))
      · intro j hj
        rcases List.mem_cons.mp hj with rfl | hjr
        · rw [hout j hinotr, hs]
        · exact hin j hjr

/-! ## Successful-invocation lemmas -/

theorem boundTuple_length {w : Wrapper σ} {args : List (String × Value)} :
    (w.boundTuple args).length = w.meth.sig.length := by
  unfold Wrapper.boundTuple
  rw [List.length_map, List.length_range]

theorem boundTuple_getElem? {w : Wrapper σ} {args : List (String × Value)}
    {j : Nat} (hj : j < w.meth.sig.length) :
    (w.boundTuple args)[j]? =
      some (match w.suppliedAt args j with
            | some v => v
            | none => w.tuple0At j) := by
  unfold Wrapper.boundTuple
  rw [List.getElem?_map, List.getElem?_range hj]
  rfl

theorem call_ok {w : Wrapper σ} {s : σ} {args : List (String × Value)}
    (hw : Wf w)
    (hall : ∀ i, i < w.meth.sig.length → w.boundOk args i)
    (hpre : ¬(args.length < w.paramNames.length ∧ w.defaults.isEmpty = true)) :
    w.call s args = (.ok (w.meth.run s (w.boundTuple args)).2,
                     (w.meth.run s (w.boundTuple args)).1, 1) := by
  unfold Wrapper.call
  rw [dif_neg hpre, initDefaults_wf hw]
  simp only []
  obtain ⟨T, hT, hTlen, hout, hin⟩ := fillLoop_ok hw.names_len
    (List.range w.meth.sig.length)
    ((List.range w.meth.sig.length).map w.tuple0At)
    (List.nodup_range _)
    (by rw [List.length_map, List.length_range])
    (fun i hi => ⟨List.mem_range.mp hi, hall i (List.mem_range.mp hi)⟩)
  rw [hT]
  simp only []
  have hTb : T = w.boundTuple args := by
    apply List.ext_getElem?
    intro j
    by_cases hj : j < w.meth.sig.length
    · rw [hin j (List.mem_range.mpr hj), boundTuple_getElem? hj]
      cases hs : w.suppliedAt args j
      · simp only []
        rw [List.getElem?_map, List.getElem?_range hj]
        rfl
      · rfl
    · rw [List.getElem?_eq_none
          (by rw [hTlen, List.length_map, List.length_range]; omega),
        List.getElem?_eq_none (by rw [boundTuple_length]; omega)]
  rw [hTb]

theorem length_ge_of_allBound {w : Wrapper σ} {args : List (String × Value)}
    (hw : Wf w) (hemp : w.defaults.isEmpty = true)
    (hall : ∀ i, i < w.meth.sig.length → w.boundOk args i) :
    w.paramNames.length ≤ args.length := by
  have hsub : w.paramNames ⊆ args.map Prod.fst := by
    intro x hx
    obtain ⟨i, hi, hxi⟩ := List.mem_iff_getElem.mp hx
    have hb := hall i (hw.names_len ▸ hi)
    unfold Wrapper.boundOk at hb
    rw [suppliedAt_eq hi] at hb
    cases hfind : args.find? (fun a => a.1 == w.paramNames.get ⟨i, hi⟩) with
    | none =>
      rw [hfind] at hb
      simp [hemp] at hb
    | some a =>
      have hmem := List.mem_of_find?_eq_some hfind
      have hpred : a.1 = w.paramNames.get ⟨i, hi⟩ := by
        simpa using List.find?_some hfind
      have hax : a.1 = x := by rw [hpred, ← hxi]; rfl
      rw [← hax]
      exact List.mem_map_of_mem Prod.fst hmem
  have hnodup : w.paramNames.Nodup := by
    rw [hw.auto hemp]
    exact autoNames_nodup _
  have hle := (List.subperm_of_subset hnodup hsub).length_le
  simpa using hle

/-- Central success theorem: on a duplicate-free argument list in which every
parameter position is bound, a constructed adapter's `execute` invokes the
bound method exactly once, on the bound values in positional order, and
returns its boxed result together with the method's state update. -/
theorem executeBound {m : Method σ} {op : Bool} {ds : List (String × Value)}
    {w : Wrapper σ} (hbind : Wrapper.bind m op ds = .ok w)
    (s : σ) (args : List (String × Value)) (hdup : dupFree args)
    (hall : ∀ i, i < w.meth.sig.length → w.boundOk args i) :
    w.execute s args = (.ok (w.meth.run s (w.boundTuple args)).2,
                        (w.meth.run s (w.boundTuple args)).1, 1) := by
  have hw := bind_wf hbind
  have hdup2 : findDup args [] = none := hdup
  unfold Wrapper.execute
  rw [hdup2]
  by_cases hn : w.meth.sig.length = 0
  · rw [if_pos hn]
    have hbt : w.boundTuple args = [] := by
      unfold Wrapper.boundTuple
      rw [hn]
      rfl
    rw [hbt]
  · rw [if_neg hn]
    refine call_ok hw hall ?_
    rintro ⟨hlt, hemp⟩
    have := length_ge_of_allBound hw hemp hall
    omega

/-! ## Execution-shape and error-path lemmas -/

/-- Every execution has one of exactly two shapes: a result with exactly one
native invocation, or an error with zero native invocations and the receiver
state untouched. -/
theorem executeShape (w : Wrapper σ) (s : σ) (args : List (String × Value)) :
    (∃ v, (w.execute s args).1 = .ok v ∧ (w.execute s args).2.2 = 1) ∨
    (∃ e, (w.execute s args).1 = .error e ∧
      (w.execute s args).2.1 = s ∧ (w.execute s args).2.2 = 0) := by
  unfold Wrapper.execute
  cases hfd : findDup args [] with
  | some d => exact Or.inr ⟨.duplicateArg d, rfl, rfl, rfl⟩
  | none =>
    by_cases hn : w.meth.sig.length = 0
    · rw [if_pos hn]
      exact Or.inl ⟨(w.meth.run s []).2, rfl, rfl⟩
    · rw [if_neg hn]
      unfold Wrapper.call
      by_cases hpre : args.length < w.paramNames.length ∧ w.defaults.isEmpty = true
      · rw [dif_pos hpre]
        exact Or.inr ⟨_, rfl, rfl, rfl⟩
      · rw [dif_neg hpre]
        cases hinit : initDefaults w.meth.sig w.defaults with
        | error e => exact Or.inr ⟨e, rfl, rfl, rfl⟩
        | ok T0 =>
          cases hfill : w.fillLoop args T0 (List.range w.meth.sig.length) with
          | error e =>
            refine Or.inr ⟨e, ?_, ?_, ?_⟩ <;> simp only [hfill]
          | ok T =>
            refine Or.inl ⟨(w.meth.run s T).2, ?_, ?_⟩ <;> simp only [hfill]

/-- When `execute` produces a result, the result carries the method's declared
return type (the boxed native result is statically of type `ReturnType`). -/
theorem execute_ok_tag {w : Wrapper σ} {s : σ} {args : List (String × Value)}
    {v : Value} {s2 : σ} {k : Nat}
    (h : w.execute s args = (.ok v, s2, k)) : v.tag = w.meth.ret := by
  unfold Wrapper.execute at h
  cases hfd : findDup args [] with
  | some d => rw [hfd] at h; simp at h
  | none =>
    rw [hfd] at h
    by_cases hn : w.meth.sig.length = 0
    · rw [if_pos hn] at h
      injection h with h1 h2
      injection h1 with h1
      rw [← h1]
      exact w.meth.run_ret s []
    · rw [if_neg hn] at h
      unfold Wrapper.call at h
      by_cases hpre : args.length < w.paramNames.length ∧ w.defaults.isEmpty = true
      · rw [dif_pos hpre] at h
        simp at h
      · rw [dif_neg hpre] at h
        cases hinit : initDefaults w.meth.sig w.defaults with
        | error e => rw [hinit] at h; simp at h
        | ok T0 =>
          rw [hinit] at h
          simp only [] at h
          cases hfill : w.fillLoop args T0 (List.range w.meth.sig.length) with
          | error e => rw [hfill] at h; simp at h
          | ok T =>
            rw [hfill] at h
            simp only [] at h
            injection h with h1 h2
            injection h1 with h1
            rw [← h1]
            exact w.meth.run_ret s T

theorem fillArg_err_typeMismatch {w : Wrapper σ} {args : List (String × Value)}
    {i : Nat} (hi : i < w.paramNames.length) {a : String × Value} {t : Ty}
    (hfind : args.find? (fun x => x.1 == w.paramNames.get ⟨i, hi⟩) = some a)
    (ht : w.meth.sig[i]? = some t) (hne : (a.2).tag ≠ t) :
    ∀ tuple, w.fillArg tuple args i =
      .error (.typeMismatch (w.paramNames.get ⟨i, hi⟩) t) := by
  intro tuple
  unfold Wrapper.fillArg
  rw [dif_pos hi, hfind]
  simp only []
  rw [ht]
  simp only []
  rw [if_neg hne]

theorem fillArg_err_missing {w : Wrapper σ} {args : List (String × Value)}
    {i : Nat} (hi : i < w.paramNames.length)
    (hfind : args.find? (fun x => x.1 == w.paramNames.get ⟨i, hi⟩) = none)
    (hemp : w.defaults.isEmpty = true) :
    ∀ tuple, w.fillArg tuple args i =
      .error (.missingArg (w.paramNames.get ⟨i, hi⟩)) := by
  intro tuple
  unfold Wrapper.fillArg
  rw [dif_pos hi, hfind]
  simp only []
  rw [if_pos hemp]

/-- The `fillArg` fold stops at the first failing position and reports its
error: positions before it are bound, and its own failure does not depend on
the tuple contents. -/
theorem fillLoop_err {w : Wrapper σ} {args : List (String × Value)} {e : Err} :
    ∀ (L1 : List Nat) (i0 : Nat) (L2 : List Nat) (tuple : List Value),
    (∀ i ∈ L1, i < w.paramNames.length ∧ w.boundOk args i) →
    (∀ t, w.fillArg t args i0 = .error e) →
    w.fillLoop args tuple (L1 ++ i0 :: L2) = .error e := by
  intro L1
  induction L1 with
  | nil =>
    intro i0 L2 tuple _ hfa
    rw [List.nil_append, Wrapper.fillLoop, hfa tuple]
  | cons i rest ih =>
    intro i0 L2 tuple hmem hfa
    obtain ⟨hi, hbound⟩ := hmem i (List.mem_cons_self _ _)
    have hok := fillArg_ok tuple hi hbound
    have hrest := fun j hj => hmem j (List.mem_cons_of_mem _ hj)
    cases hs : w.suppliedAt args i with
    | some v =>
      rw [hs] at hok
      rw [List.cons_append, Wrapper.fillLoop, hok]
      exact ih i0 L2 (tuple.set i v) hrest hfa
    | none =>
      rw [hs] at hok
      rw [List.cons_append, Wrapper.fillLoop, hok]
      exact ih i0 L2 tuple hrest hfa

theorem range_split {n i0 : Nat} (h : i0 < n) :
    ∃ L2, List.range n = List.range i0 ++ i0 :: L2 := by
  refine ⟨(List.range (n - i0 - 1)).map (fun k => i0 + k.succ), ?_⟩
  conv_lhs => rw [show n = i0 + (n - i0 - 1 + 1) by omega]
  rw [List.range_add, List.range_succ_eq_map]
  simp only [List.map_cons, List.map_map]
  simp [Function.comp_def]

theorem validateLoop_err {sig : List Ty} {names : List String}
    {ds : List (String × Value)} :
    ∀ (L1 : List Nat) (j : Nat) (L2 : List Nat),
    (∀ i ∈ L1, ∀ (t : Ty) (d : String × Value),
      sig[i]? = some t → ds[i]? = some d → (d.2).tag = t) →
    (∃ t d, sig[j]? = some t ∧ ds[j]? = some d ∧ (d.2).tag ≠ t) →
    validateLoop sig names ds (L1 ++ j :: L2) =
      .error (.defaultTypeMismatch j (names.getD j "")) := by
  intro L1
  induction L1 with
  | nil =>
    intro j L2 _ hbad
    obtain ⟨t, d, ht, hd, hne⟩ := hbad
    rw [List.nil_append, validateLoop, ht, hd]
    simp only []
    rw [if_neg hne]
  | cons i rest ih =>
    intro j L2 hgood hbad
    have hrest := fun i2 hi2 => hgood i2 (List.mem_cons_of_mem _ hi2)
    rw [List.cons_append, validateLoop]
    cases hsi : sig[i]? with
    | none =>
      simp only []
      exact ih j L2 hrest hbad
    | some t =>
      cases hdi : ds[i]? with
      | none =>
        simp only []
        exact ih j L2 hrest hbad
      | some d =>
        simp only []
        rw [if_pos (hgood i (List.mem_cons_self _ _) t d hsi hdi)]
        exact ih j L2 hrest hbad

theorem findDup_eq_none :
    ∀ {args : List (String × Value)} {seen : List String},
    (args.map Prod.fst).Nodup → (∀ x ∈ seen, x ∉ args.map Prod.fst) →
    findDup args seen = none := by
  intro args
  induction args with
  | nil => intro seen _ _; rfl
  | cons a rest ih =>
    intro seen hnd hdisj
    rw [findDup]
    have hns : a.1 ∉ seen := fun hs =>
      hdisj a.1 hs (List.mem_map_of_mem Prod.fst (List.mem_cons_self _ _))
    rw [if_neg (by simpa using hns)]
    rw [List.map_cons] at hnd
    obtain ⟨hhead, hrest2⟩ := List.nodup_cons.mp hnd
    refine ih hrest2 ?_
    intro x hx
    rcases List.mem_cons.mp hx with rfl | hxs
    · exact hhead
    · exact fun hxm => hdisj x hxs (by
        rw [List.map_cons]
        exact List.mem_cons_of_mem _ hxm)

theorem find?_filter_eq {α : Type} (p q : α → Bool)
    (himp : ∀ a, p a = true → q a = true) :
    ∀ (l : List α), (l.filter q).find? p = l.find? p := by
  intro l
  induction l with
  | nil => rfl
  | cons a rest ih =>
    cases hq : q a with
    | true =>
      rw [List.filter_cons_of_pos hq]
      cases hp : p a with
      | true =>
        rw [List.find?_cons_of_pos _ hp, List.find?_cons_of_pos _ hp]
      | false =>
        rw [List.find?_cons_of_neg _ (by simp [hp]),
          List.find?_cons_of_neg _ (by simp [hp]), ih]
    | false =>
      have hp : p a = false := by
        cases hpc : p a
        · rfl
        · rw [himp a hpc] at hq; cases hq
      rw [List.filter_cons_of_neg (by simp [hq]), List.find?_cons_of_neg _ (by simp [hp]), ih]

theorem fillArg_err_shape {w : Wrapper σ} {tuple : List Value}
    {args : List (String × Value)} {i : Nat} {e : Err}
    (h : w.fillArg tuple args i = .error e) :
    (∃ p, e = .missingArg p) ∨ (∃ p t, e = .typeMismatch p t) := by
  unfold Wrapper.fillArg at h
  by_cases hi : i < w.paramNames.length
  · rw [dif_pos hi] at h
    cases hfind : args.find? (fun a => a.1 == w.paramNames.get ⟨i, hi⟩) with
    | some a =>
      rw [hfind] at h
      simp only [] at h
      cases ht : w.meth.sig[i]? with
      | some t =>
        rw [ht] at h
        simp only [] at h
        split at h
        next => cases h
        next =>
          injection h with h1
          exact Or.inr ⟨_, _, h1.symm⟩
      | none => rw [ht] at h; cases h
    | none =>
      rw [hfind] at h
      simp only [] at h
      split at h
      next =>
        injection h with h1
        exact Or.inl ⟨_, h1.symm⟩
      next => cases h
  · rw [dif_neg hi] at h
    cases h

theorem fillLoop_err_shape {w : Wrapper σ} {args : List (String × Value)}
    {e : Err} :
    ∀ {L : List Nat} {tuple : List Value},
    w.fillLoop args tuple L = .error e →
    (∃ p, e = .missingArg p) ∨ (∃ p t, e = .typeMismatch p t) := by
  intro L
  induction L with
  | nil => intro tuple h; cases h
  | cons i rest ih =>
    intro tuple h
    rw [Wrapper.fillLoop] at h
    cases hfa : w.fillArg tuple args i with
    | error e2 =>
      rw [hfa] at h
      simp only [] at h
      injection h with h1
      exact h1 ▸ fillArg_err_shape hfa
    | ok t2 =>
      rw [hfa] at h
      simp only [] at h
      exact ih h

/-! ## Claim theorems -/

/-- C2: a single `execute` call invokes the underlying bound method at most
once — exactly once when it returns a result, and never when it fails with
any error, in which case the receiver state is left unchanged (validation,
narrowing and defaulting all complete before the single native call). -/
theorem claim2_at_most_one_invocation {σ : Type} (w : Wrapper σ) (s : σ)
    (args : List (String × Value)) :
    (w.execute s args).2.2 ≤ 1 ∧
    (∀ v, (w.execute s args).1 = .ok v → (w.execute s args).2.2 = 1) ∧
    (∀ e, (w.execute s args).1 = .error e →
      (w.execute s args).2.2 = 0 ∧ (w.execute s args).2.1 = s) := by
  rcases executeShape w s args with ⟨v, hok, hk⟩ | ⟨e, herr, hs, hk⟩
  · refine ⟨by omega, fun v2 _ => hk, fun e2 he2 => ?_⟩
    rw [hok] at he2
    cases he2
  · refine ⟨by omega, fun v2 hv2 => ?_, fun e2 _ => ⟨hk, hs⟩⟩
    rw [herr] at hv2
    cases hv2

/-- Witness for C2 at concrete inputs: a successful call on the mutating
counter adapter invokes the method once, and a failing call on the same
adapter invokes it zero times leaving the counter untouched. -/
theorem claim2_witness :
    (wBump.execute 100 [("param1", Value.vint 5)]).2.2 = 1 ∧
    ((wBump.execute 100 []).2.2 = 0 ∧ (wBump.execute 100 []).2.1 = 100) :=
  ⟨(claim2_at_most_one_invocation wBump 100 [("param1", Value.vint 5)]).2.1
      (Value.vint 105) (by decide),
   (claim2_at_most_one_invocation wBump 100 []).2.2
      (Err.missingArg "param1") (by decide)⟩

/-- C5: adapter construction validates the default set entirely and eagerly:
a non-empty default set whose length differs from the arity is rejected with
a configuration error whatever its values; a default value that does not
narrow to its position's declared tag is rejected at construction time with a
configuration error naming the offending parameter; and after a successful
construction no bad-default cast can surface at call time. -/
theorem claim5_defaults_validated_eagerly {σ : Type} (m : Method σ)
    (ds : List (String × Value)) :
    (ds ≠ [] → ds.length ≠ m.sig.length →
      Wrapper.bind m true ds = .error (.defaultsCountMismatch m.sig.length)) ∧
    (∀ (i : Nat) (t : Ty) (d : String × Value),
      ds.length = m.sig.length →
      m.sig[i]? = some t → ds[i]? = some d → (d.2).tag ≠ t →
      ∃ j, (∃ (t2 : Ty) (d2 : String × Value), m.sig[j]? = some t2 ∧
            ds[j]? = some d2 ∧ (d2.2).tag ≠ t2) ∧
        Wrapper.bind m true ds =
          .error (.defaultTypeMismatch j ((ds.map Prod.fst).getD j ""))) ∧
    (∀ w : Wrapper σ, Wrapper.bind m true ds = .ok w →
      ∀ (s : σ) (args : List (String × Value)),
        (w.execute s args).1 ≠ .error .badCast) := by
  refine ⟨?_, ?_, ?_⟩
  · intro hne hlen
    unfold Wrapper.bind
    rw [if_neg (by simp)]
    have hinfo : initParamInfo m.sig ds =
        .error (.defaultsCountMismatch m.sig.length) := by
      unfold initParamInfo
      rw [if_neg (by simp [hne]), if_pos hlen]
    rw [hinfo]
  · intro i t d hlen ht hd hne
    have hdsne : ds ≠ [] := by
      intro hEq
      subst hEq
      simp at hd
    have hin : i < m.sig.length := by
      by_contra hge
      rw [List.getElem?_eq_none (by omega)] at ht
      cases ht
    have hP : ∃ j, (fun j => ∃ (t2 : Ty) (d2 : String × Value),
        m.sig[j]? = some t2 ∧ ds[j]? = some d2 ∧ (d2.2).tag ≠ t2) j :=
      ⟨i, t, d, ht, hd, hne⟩
    classical
    obtain ⟨j0, hj0, hj0min⟩ := Nat.findX hP
    obtain ⟨t2, d2, ht2, hd2, hne2⟩ := hj0
    have hj0n : j0 < m.sig.length := by
      by_contra hge
      rw [List.getElem?_eq_none (by omega)] at ht2
      cases ht2
    refine ⟨j0, ⟨t2, d2, ht2, hd2, hne2⟩, ?_⟩
    unfold Wrapper.bind
    rw [if_neg (by simp)]
    have hinfo : initParamInfo m.sig ds = .ok (ds.map Prod.fst) := by
      unfold initParamInfo
      rw [if_neg (by simp [hdsne]), if_neg (by omega)]
    rw [hinfo]
    simp only []
    rw [if_pos ⟨by omega, by simp [hdsne]⟩]
    obtain ⟨L2, hsplit⟩ := range_split hj0n
    have hval : validateDefaults m.sig (ds.map Prod.fst) ds =
        .error (.defaultTypeMismatch j0 ((ds.map Prod.fst).getD j0 "")) := by
      unfold validateDefaults
      rw [hsplit]
      refine validateLoop_err (List.range j0) j0 L2 ?_ ⟨t2, d2, ht2, hd2, hne2⟩
      intro i2 hi2 t3 d3 ht3 hd3
      by_contra hne3
      exact hj0min i2 (List.mem_range.mp hi2) ⟨t3, d3, ht3, hd3, hne3⟩
    rw [hval]
  · intro w hbind s args hbad
    have hw := bind_wf hbind
    unfold Wrapper.execute at hbad
    cases hfd : findDup args [] with
    | some d2 => rw [hfd] at hbad; simp at hbad
    | none =>
      rw [hfd] at hbad
      by_cases hn : w.meth.sig.length = 0
      · rw [if_pos hn] at hbad
        cases hbad
      · rw [if_neg hn] at hbad
        unfold Wrapper.call at hbad
        by_cases hpre : args.length < w.paramNames.length ∧
            w.defaults.isEmpty = true
        · rw [dif_pos hpre] at hbad
          simp at hbad
        · rw [dif_neg hpre, initDefaults_wf hw] at hbad
          simp only [] at hbad
          cases hfill : w.fillLoop args
              ((List.range w.meth.sig.length).map w.tuple0At)
              (List.range w.meth.sig.length) with
          | error e2 =>
            rw [hfill] at hbad
            simp only [] at hbad
            injection hbad with hbad2
            rcases fillLoop_err_shape hfill with ⟨p, rfl⟩ | ⟨p, t, rfl⟩ <;>
              cases hbad2
          | ok T =>
            rw [hfill] at hbad
            cases hbad

/-- Witness for C5 at concrete inputs: a one-element default set for the
two-argument multiply method is rejected for its length; a wrongly typed
second default is rejected with an error naming parameter `b`; and the
successfully constructed `wDefaults` adapter never surfaces a bad-default
cast when executed. -/
theorem claim5_witness :
    (Wrapper.bind mulMethod true [("a", Value.vint 1)] =
      .error (.defaultsCountMismatch 2)) ∧
    (∃ j, (∃ (t2 : Ty) (d2 : String × Value),
        mulMethod.sig[j]? = some t2 ∧
        [("a", Value.vint 1), ("b", Value.vstr "x")][j]? = some d2 ∧
        (d2.2).tag ≠ t2) ∧
      Wrapper.bind mulMethod true [("a", Value.vint 1), ("b", Value.vstr "x")] =
        .error (.defaultTypeMismatch j
          (([("a", Value.vint 1), ("b", Value.vstr "x")].map Prod.fst).getD j ""))) ∧
    (wDefaults.execute () []).1 ≠ .error .badCast :=
  ⟨(claim5_defaults_validated_eagerly mulMethod [("a", Value.vint 1)]).1
      (by decide) (by decide),
   (claim5_defaults_validated_eagerly mulMethod
      [("a", Value.vint 1), ("b", Value.vstr "x")]).2.1 1 Ty.tint
      ("b", Value.vstr "x") (by decide) (by decide) (by decide) (by decide),
   (claim5_defaults_validated_eagerly mulMethod
      [("a", Value.vint 10), ("b", Value.vint 20)]).2.2 wDefaults rfl () []⟩

/-- C6: an argument list in which some name occurs more than once — even with
identical values — is rejected with a duplicate-argument error before any
other processing: for every adapter (zero-arity included, unknown names
included), the state is untouched, the method is not invoked, and the error
is the duplicate-argument one. -/
theorem claim6_duplicate_rejected_first {σ : Type} (w : Wrapper σ) (s : σ)
    (args : List (String × Value)) (h : ¬(args.map Prod.fst).Nodup) :
    ∃ d, 2 ≤ (args.map Prod.fst).count d ∧
      w.execute s args = (.error (.duplicateArg d), s, 0) := by
  cases hfd : findDup args [] with
  | none => exact absurd (findDup_none hfd).1 h
  | some d =>
    obtain ⟨hmem, hcase⟩ := findDup_some hfd
    rcases hcase with hseen | hcount
    · cases hseen
    · refine ⟨d, hcount, ?_⟩
      unfold Wrapper.execute
      rw [hfd]

/-- Witness for C6: a zero-arity adapter rejects a list repeating the unknown
name `junk` with identical values, leaving the state untouched. -/
theorem claim6_witness :
    ∃ d, 2 ≤ ((([("junk", Value.vint 1), ("junk", Value.vint 1)] :
        List (String × Value))).map Prod.fst).count d ∧
      wZero.execute () [("junk", Value.vint 1), ("junk", Value.vint 1)] =
        (.error (.duplicateArg d), (), 0) :=
  claim6_duplicate_rejected_first wZero ()
    [("junk", Value.vint 1), ("junk", Value.vint 1)] (by decide)

theorem wf_append {e : Engine σ} {name2 : String} {w2 : Wrapper σ}
    (hwf : e.Wf) (hne2 : name2.isEmpty = false)
    (hnone : e.commands.find? (fun p => p.1 == name2) = none) :
    (Engine.mk (e.commands ++ [(name2, w2)]) : Engine σ).Wf := by
  obtain ⟨hnd, hkeys⟩ := hwf
  constructor
  · show ((e.commands ++ [(name2, w2)]).map Prod.fst).Nodup
    rw [List.map_append]
    rw [List.nodup_append]
    refine ⟨hnd, List.nodup_singleton _, ?_⟩
    intro x hx hx2
    obtain rfl : x = name2 := by simpa using hx2
    obtain ⟨p, hp, hpeq⟩ := List.mem_map.mp hx
    have := List.find?_eq_none.mp hnone p hp
    simp [hpeq] at this
  · intro p hp
    rcases List.mem_append.mp hp with hin | hsing
    · exact hkeys p hin
    · obtain rfl : p = (name2, w2) := by simpa using hsing
      simpa using hne2

/-- C7: registering a second command under a name already present always
fails with a conflict error (through either registration entry point), and
the first registration remains untouched — still present, still reported by
`has_command`, and `execute` on that name still dispatches to the originally
registered command. -/
theorem claim7_register_conflict {σ : Type} (e : Engine σ) (name : String)
    (h : e.has_command name = true) :
    (∀ w2 : Wrapper σ,
      e.register_command name w2 = .error (.alreadyRegistered name)) ∧
    (∀ (m : Method σ) (op : Bool) (ds : List (String × Value)),
      e.register_bind name m op ds = .error (.alreadyRegistered name)) ∧
    e.has_command name = true ∧
    ∃ p, e.commands.find? (fun q => q.1 == name) = some p ∧ p.1 = name ∧
      ∀ (s : σ) (args : List (String × Value)),
        e.execute s name args = p.2.execute s args := by
  have h0 := h
  unfold Engine.has_command at h
  by_cases hne : name.isEmpty = true
  · rw [if_pos hne] at h
    cases h
  · rw [if_neg hne] at h
    obtain ⟨p, hp⟩ := Option.isSome_iff_exists.mp h
    refine ⟨?_, ?_, h0, p, hp, by simpa using List.find?_some hp, ?_⟩
    · intro w2
      unfold Engine.register_command
      rw [if_neg hne, if_pos (by rw [hp]; rfl)]
    · intro m op ds
      unfold Engine.register_bind
      rw [if_neg hne, if_pos (by rw [hp]; rfl)]
    · intro s args
      unfold Engine.execute
      rw [if_neg hne, hp]

/-- Witness for C7: with `cmd1` already registered, re-registering it fails
with the conflict error, `has_command` still reports it, and executing it
still dispatches to the original zero-arity command. -/
theorem claim7_witness :
    engineTwo.register_command "cmd1" wDefaults =
      .error (.alreadyRegistered "cmd1") ∧
    engineTwo.has_command "cmd1" = true ∧
    engineTwo.execute () "cmd1" [] = (.ok (Value.vint 42), (), 1) := by
  obtain ⟨hreg, hbind, hhas, p, hfind, hname, hexec⟩ :=
    claim7_register_conflict engineTwo "cmd1" (by decide)
  refine ⟨hreg wDefaults, hhas, ?_⟩
  rw [hexec () []]
  have hp : p = ("cmd1", wZero) := by
    have h0 : engineTwo.commands.find? (fun q => q.1 == "cmd1") =
        some ("cmd1", wZero) := rfl
    rw [h0] at hfind
    injection hfind with h1
    exact h1.symm
  rw [hp]
  decide

/-- C8: when `execute` on a registered command succeeds, its erased result
carries the command's declared return type; `execute_as` requesting a
different type fails with a type-mismatch error reporting both the requested
type and the declared return type (and the same state/invocation outcome as
the underlying `execute`), while `execute_as` requesting the declared return
type returns the very value `execute` produced. -/
theorem claim8_execute_as {σ : Type} {e : Engine σ} {s : σ} {name : String}
    {args : List (String × Value)} {v : Value} {s2 : σ} {k : Nat}
    (hok : e.execute s name args = (.ok v, s2, k)) :
    ∃ p, e.commands.find? (fun q => q.1 == name) = some p ∧ p.1 = name ∧
      v.tag = p.2.getReturnType ∧
      (∀ R, R ≠ p.2.getReturnType →
        e.execute_as s name args R =
          (.error (.resultTypeMismatch R (p.2.getReturnType)), s2, k)) ∧
      e.execute_as s name args (p.2.getReturnType) = (.ok v, s2, k) := by
  have hok0 := hok
  unfold Engine.execute at hok
  by_cases hne : name.isEmpty = true
  · rw [if_pos hne] at hok
    simp at hok
  · rw [if_neg hne] at hok
    cases hfind : e.commands.find? (fun q => q.1 == name) with
    | none =>
      rw [hfind] at hok
      simp at hok
    | some p =>
      rw [hfind] at hok
      simp only [] at hok
      have htag : v.tag = p.2.meth.ret := execute_ok_tag hok
      refine ⟨p, rfl, by simpa using List.find?_some hfind, htag, ?_, ?_⟩
      · intro R hR
        unfold Engine.execute_as
        rw [hok0]
        simp only []
        rw [if_neg (fun hEq => hR (hEq.symm.trans htag)), hfind]
      · unfold Engine.execute_as
        rw [hok0]
        simp only []
        rw [if_pos (show v.tag = p.2.getReturnType from htag)]

/-- Witness for C8: on `cmd2` (declared return type `tint`), requesting
`tstr` fails reporting both types while requesting `tint` returns the erased
result of the plain `execute`. -/
theorem claim8_witness :
    engineTwo.execute_as () "cmd2"
      [("a", Value.vint 4), ("b", Value.vint 5)] Ty.tstr =
      (.error (.resultTypeMismatch Ty.tstr Ty.tint), (), 1) ∧
    engineTwo.execute_as () "cmd2"
      [("a", Value.vint 4), ("b", Value.vint 5)] Ty.tint =
      (.ok (Value.vint 20), (), 1) := by
  obtain ⟨p, hfind, hname, htag, herr, hok2⟩ :=
    @claim8_execute_as Unit engineTwo () "cmd2"
      [("a", Value.vint 4), ("b", Value.vint 5)]
      (Value.vint 20) () 1 (by decide)
  have hp : p = ("cmd2", wDefaults) := by
    have h0 : engineTwo.commands.find? (fun q => q.1 == "cmd2") =
        some ("cmd2", wDefaults) := rfl
    rw [h0] at hfind
    injection hfind with h1
    exact h1.symm
  subst hp
  exact ⟨herr Ty.tstr (by decide), hok2⟩

/-- C9: in every well-formed registry state (the invariant all reachable
states satisfy — the fresh registry has it and registration and `clear`
preserve it), the introspection views agree: the name list has no
duplicates, `command_count` equals its length, a name is listed exactly when
`has_command` holds, an empty name is simply `false`, and after `clear` the
registry is empty. -/
theorem claim9_introspection_consistent {σ : Type} (e : Engine σ)
    (name : String) (hwf : e.Wf) :
    e.get_command_list.Nodup ∧
    e.command_count = e.get_command_list.length ∧
    (e.has_command name = true ↔ name ∈ e.get_command_list) ∧
    e.has_command "" = false ∧
    (e.clear).command_count = 0 ∧
    (∀ n2 : String, (e.clear).has_command n2 = false) ∧
    (Engine.empty : Engine σ).Wf ∧
    (e.clear).Wf ∧
    (∀ (name2 : String) (w2 : Wrapper σ) (e2 : Engine σ),
      e.register_command name2 w2 = .ok e2 → e2.Wf) ∧
    (∀ (name2 : String) (m : Method σ) (op : Bool)
      (ds : List (String × Value)) (e2 : Engine σ),
      e.register_bind name2 m op ds = .ok e2 → e2.Wf) := by
  obtain ⟨hnd, hkeys⟩ := hwf
  refine ⟨hnd, by simp [Engine.command_count, Engine.get_command_list], ?_,
    ?_, rfl, ?_, ?_, ?_, ?_, ?_⟩
  · unfold Engine.has_command Engine.get_command_list
    by_cases hne : name.isEmpty = true
    · rw [if_pos hne]
      constructor
      · intro h
        cases h
      · intro hmem
        obtain ⟨p, hp, hpeq⟩ := List.mem_map.mp hmem
        have hk := hkeys p hp
        rw [hpeq, hne] at hk
        cases hk
    · rw [if_neg hne]
      constructor
      · intro h
        obtain ⟨x, hx, hpx⟩ := List.find?_isSome.mp h
        exact List.mem_map.mpr ⟨x, hx, by simpa using hpx⟩
      · intro hmem
        obtain ⟨p, hp, hpeq⟩ := List.mem_map.mp hmem
        exact List.find?_isSome.mpr ⟨p, hp, by simp [hpeq]⟩
  · unfold Engine.has_command
    rw [if_pos (by decide : ("" : String).isEmpty = true)]
  · intro n2
    unfold Engine.has_command Engine.clear
    by_cases hne : n2.isEmpty = true
    · rw [if_pos hne]
    · rw [if_neg hne]
      rfl
  · exact ⟨List.nodup_nil, by intro p hp; cases hp⟩
  · exact ⟨List.nodup_nil, by intro p hp; cases hp⟩
  · intro name2 w2 e2 hreg
    unfold Engine.register_command at hreg
    by_cases hne2 : name2.isEmpty = true
    · rw [if_pos hne2] at hreg
      cases hreg
    · rw [if_neg hne2] at hreg
      by_cases hfound : (e.commands.find? (fun p => p.1 == name2)).isSome = true
      · rw [if_pos hfound] at hreg
        cases hreg
      · rw [if_neg hfound] at hreg
        obtain rfl : (⟨e.commands ++ [(name2, w2)]⟩ : Engine σ) = e2 := by
          simpa using hreg
        refine wf_append ⟨hnd, hkeys⟩ (by simpa using hne2) ?_
        cases hcase : e.commands.find? (fun p => p.1 == name2)
        · rfl
        · rw [hcase] at hfound
          simp at hfound
  · intro name2 m op ds e2 hreg
    unfold Engine.register_bind at hreg
    by_cases hne2 : name2.isEmpty = true
    · rw [if_pos hne2] at hreg
      cases hreg
    · rw [if_neg hne2] at hreg
      by_cases hfound : (e.commands.find? (fun p => p.1 == name2)).isSome = true
      · rw [if_pos hfound] at hreg
        cases hreg
      · rw [if_neg hfound] at hreg
        cases hbindc : Wrapper.bind m op ds with
        | error e3 =>
          rw [hbindc] at hreg
          cases hreg
        | ok w2 =>
          rw [hbindc] at hreg
          simp only [] at hreg
          obtain rfl : (⟨e.commands ++ [(name2, w2)]⟩ : Engine σ) = e2 := by
            simpa using hreg
          refine wf_append ⟨hnd, hkeys⟩ (by simpa using hne2) ?_
          cases hcase : e.commands.find? (fun p => p.1 == name2)
          · rfl
          · rw [hcase] at hfound
            simp at hfound

/-- Witness for C9 (Scenario D): the registry holding `cmd1` and `cmd2` has
count 2; after `clear`, the count is 0 and `has_command "cmd1"` is false;
and the views agree on `cmd1`. -/
theorem claim9_witness :
    engineTwo.command_count = 2 ∧
    (engineTwo.clear).command_count = 0 ∧
    (engineTwo.clear).has_command "cmd1" = false ∧
    (engineTwo.has_command "cmd1" = true ↔
      "cmd1" ∈ engineTwo.get_command_list) := by
  have h := claim9_introspection_consistent engineTwo "cmd1"
    ⟨by decide, by decide⟩
  exact ⟨rfl, h.2.2.2.2.1, h.2.2.2.2.2.1 "cmd1", h.2.2.1⟩

/-- C1: on every duplicate-free argument list in which each parameter
position is bound — by a supplied argument of the declared type or, failing
that, by the pre-validated default — `execute` returns exactly the boxed
result of invoking the bound method once with the bound values in positional
order (supplied arguments overriding defaults position-wise), together with
the method's state update. -/
theorem claim1_execute_matches_direct_call {σ : Type} {m : Method σ}
    {op : Bool} {ds : List (String × Value)} {w : Wrapper σ}
    (hbind : Wrapper.bind m op ds = .ok w)
    (s : σ) (args : List (String × Value))
    (hdup : dupFree args)
    (hall : ∀ i, i < w.meth.sig.length → w.boundOk args i) :
    w.execute s args =
      (.ok (w.meth.run s (w.boundTuple args)).2,
       (w.meth.run s (w.boundTuple args)).1, 1) :=
  executeBound hbind s args hdup hall

/-- Witness for C1 (Scenario B): `f(a,b) = a*b` with defaults
`{a:10, b:20}` gives `execute({a:5}) = 100` and `execute({}) = 200`. -/
theorem claim1_witness :
    wDefaults.execute () [("a", Value.vint 5)] =
      (.ok (Value.vint 100), (), 1) ∧
    wDefaults.execute () [] = (.ok (Value.vint 200), (), 1) := by
  have hbind : Wrapper.bind mulMethod true
      [("a", Value.vint 10), ("b", Value.vint 20)] = .ok wDefaults := rfl
  constructor
  · have h := claim1_execute_matches_direct_call hbind ()
      [("a", Value.vint 5)] (by decide) (by decide)
    rw [h]
    decide
  · have h := claim1_execute_matches_direct_call hbind () []
      (by decide) (by decide)
    rw [h]
    decide

/-- C3 counterexample: on the no-defaults, arity-two adapter, the
duplicate-free list `{param2: "x"}` supplies an entry for parameter 1 whose
value does not narrow to the declared `tint` — yet `execute` fails with a
*missing-argument* error (naming the supplied `param2`), not the
type-mismatch error the claim requires, because the count-based pre-check in
`Wrapper::call` fires first. -/
theorem claim3_counterexample :
    (Wrapper.bind mulMethod true [] = .ok wNoDefaults) ∧
    (dupFree [("param2", Value.vstr "x")] ∧
     wNoDefaults.paramNames[1]? = some "param2" ∧
     wNoDefaults.meth.sig[1]? = some Ty.tint ∧
     List.find? (fun a => a.1 == "param2")
        [("param2", Value.vstr "x")] = some ("param2", Value.vstr "x") ∧
     (Value.vstr "x").tag ≠ Ty.tint ∧
     wNoDefaults.execute () [("param2", Value.vstr "x")] =
       (.error (.missingArg "param2"), (), 0)) :=
  ⟨rfl, by decide⟩

/-- C3 (amended): the type-mismatch failure is reported as the claim states
provided the mismatching position is reached: on a duplicate-free list, when
every position before `i` is bound, position `i`'s supplied entry fails to
narrow to the declared tag, and — when the default set is empty — the list
has at least as many entries as there are parameters, `execute` fails with a
type-mismatch error naming parameter `i` and its expected tag, with no
method invocation and the state unchanged. -/
theorem claim3_amended {σ : Type} {m : Method σ} {op : Bool}
    {ds : List (String × Value)} {w : Wrapper σ}
    (hbind : Wrapper.bind m op ds = .ok w)
    (s : σ) (args : List (String × Value)) (i : Nat)
    (hdup : dupFree args)
    (hi : i < w.paramNames.length)
    (a : String × Value) (t : Ty)
    (hfind : args.find? (fun x => x.1 == w.paramNames.get ⟨i, hi⟩) = some a)
    (ht : w.meth.sig[i]? = some t)
    (hne : (a.2).tag ≠ t)
    (hbefore : ∀ j, j < i → w.boundOk args j)
    (hcount : w.defaults.isEmpty = true → w.paramNames.length ≤ args.length) :
    w.execute s args =
      (.error (.typeMismatch (w.paramNames.get ⟨i, hi⟩) t), s, 0) := by
  have hw := bind_wf hbind
  have hdup2 : findDup args [] = none := hdup
  have hin : i < w.meth.sig.length := hw.names_len ▸ hi
  have hn : w.meth.sig.length ≠ 0 := by omega
  unfold Wrapper.execute
  rw [hdup2, if_neg hn]
  unfold Wrapper.call
  have hpre : ¬(args.length < w.paramNames.length ∧
      w.defaults.isEmpty = true) := by
    rintro ⟨hlt, hemp⟩
    have := hcount hemp
    omega
  rw [dif_neg hpre, initDefaults_wf hw]
  simp only []
  have hgood : ∀ j ∈ List.range i,
      j < w.paramNames.length ∧ w.boundOk args j := by
    intro j hj
    have hji := List.mem_range.mp hj
    exact ⟨by omega, hbefore j hji⟩
  obtain ⟨L2, hsplit⟩ := range_split hin
  rw [hsplit, fillLoop_err (List.range i) i L2 _ hgood
    (fillArg_err_typeMismatch hi hfind ht hne)]

/-- Witness for C3 (amended): on the no-defaults adapter, a list supplying a
wrongly typed `param1` together with a well-typed `param2` is rejected with
the type-mismatch error naming `param1` and `tint`. -/
theorem claim3_witness :
    wNoDefaults.execute ()
      [("param1", Value.vstr "x"), ("param2", Value.vint 5)] =
      (.error (.typeMismatch "param1" Ty.tint), (), 0) := by
  have h := claim3_amended
    (rfl : Wrapper.bind mulMethod true [] = .ok wNoDefaults)
    () [("param1", Value.vstr "x"), ("param2", Value.vint 5)] 0
    (by decide) (by decide) ("param1", Value.vstr "x") Ty.tint
    (by decide) (by decide) (by decide)
    (fun j hj => absurd hj (by omega))
    (by decide)
  exact h

/-- C4 counterexample: on the no-defaults, arity-two adapter, the well-typed
list `{param2: 5}` omits `param1`; `execute` does fail with a missing-argument
error, but the parameter it names is `param2` — a parameter that *is*
supplied — because the count-based pre-check names
`paramNames[args.size()]`. -/
theorem claim4_counterexample :
    (Wrapper.bind mulMethod true [] = .ok wNoDefaults) ∧
    (dupFree [("param2", Value.vint 5)] ∧
     wNoDefaults.defaults = [] ∧
     ([("param2", Value.vint 5)] : List (String × Value)).all
        (fun a => a.1 ≠ "param1") = true ∧
     "param1" ∈ wNoDefaults.paramNames ∧
     "param2" ∈ ([("param2", Value.vint 5)] :
        List (String × Value)).map Prod.fst ∧
     wNoDefaults.execute () [("param2", Value.vint 5)] =
       (.error (.missingArg "param2"), (), 0)) :=
  ⟨rfl, by decide⟩

/-- C4 (amended): for an adapter with an empty default set, a duplicate-free
argument list whose supplied entries all narrow to their positions' types and
which leaves some parameter position unsupplied makes `execute` fail with a
missing-argument error naming one of the adapter's parameters (not
necessarily an omitted one: when the list is shorter than the arity the
parameter at index `args.length` is named), with no method invocation; and
the identical call succeeds on the counterpart adapter constructed with a
full default set whose supplied entries narrow. -/
theorem claim4_amended {σ : Type} {m : Method σ} {op : Bool} {w : Wrapper σ}
    (hbind : Wrapper.bind m op [] = .ok w)
    (s : σ) (args : List (String × Value))
    (hdup : dupFree args)
    (hnarrow : ∀ i, i < w.meth.sig.length → w.suppliedOk args i)
    (homit : ∃ i, i < w.meth.sig.length ∧ w.suppliedAt args i = none) :
    (∃ p, p ∈ w.paramNames ∧
      w.execute s args = (.error (.missingArg p), s, 0)) ∧
    (∀ (ds2 : List (String × Value)) (w2 : Wrapper σ),
      Wrapper.bind m op ds2 = .ok w2 → ds2.isEmpty = false →
      (∀ i, i < w2.meth.sig.length → w2.suppliedOk args i) →
      w2.execute s args =
        (.ok (w2.meth.run s (w2.boundTuple args)).2,
         (w2.meth.run s (w2.boundTuple args)).1, 1)) := by
  have hw := bind_wf hbind
  have hdefs : w.defaults = [] := (bind_ok hbind).2.1
  constructor
  · have hdup2 : findDup args [] = none := hdup
    obtain ⟨iw, hiw, hiwnone⟩ := homit
    have hn : w.meth.sig.length ≠ 0 := by omega
    unfold Wrapper.execute
    rw [hdup2, if_neg hn]
    unfold Wrapper.call
    by_cases hlt : args.length < w.paramNames.length
    · rw [dif_pos ⟨hlt, by rw [hdefs]; rfl⟩]
      exact ⟨w.paramNames.get ⟨args.length, hlt⟩, List.get_mem _ _ _, rfl⟩
    · rw [dif_neg (fun hc => hlt hc.1), initDefaults_wf hw]
      simp only []
      classical
      have hex : ∃ j, j < w.meth.sig.length ∧ w.suppliedAt args j = none :=
        ⟨iw, hiw, hiwnone⟩
      obtain ⟨i0, hi0, hi0min⟩ := Nat.findX hex
      obtain ⟨hi0n, hi0none⟩ := hi0
      have hi0names : i0 < w.paramNames.length := by
        rw [hw.names_len]
        exact hi0n
      have hfind0 : args.find?
          (fun x => x.1 == w.paramNames.get ⟨i0, hi0names⟩) = none := by
        have hsupp := hi0none
        rw [suppliedAt_eq hi0names] at hsupp
        cases hcase : args.find?
            (fun x => x.1 == w.paramNames.get ⟨i0, hi0names⟩)
        · rfl
        · rw [hcase] at hsupp
          cases hsupp
      have hgood : ∀ j ∈ List.range i0,
          j < w.paramNames.length ∧ w.boundOk args j := by
        intro j hj
        have hji0 : j < i0 := List.mem_range.mp hj
        have hjn : j < w.meth.sig.length := by omega
        refine ⟨by rw [hw.names_len]; omega, ?_⟩
        have hnP := hi0min j hji0
        have hsome : w.suppliedAt args j ≠ none := fun hno => hnP ⟨hjn, hno⟩
        have hok := hnarrow j hjn
        unfold Wrapper.suppliedOk at hok
        unfold Wrapper.boundOk
        cases hs : w.suppliedAt args j with
        | none => exact absurd hs hsome
        | some v =>
          rw [hs] at hok
          exact hok
      obtain ⟨L2, hsplit⟩ := range_split hi0n
      rw [hsplit, fillLoop_err (List.range i0) i0 L2 _ hgood
        (fillArg_err_missing hi0names hfind0 (by rw [hdefs]; rfl))]
      exact ⟨w.paramNames.get ⟨i0, hi0names⟩, List.get_mem _ _ _, rfl⟩
  · intro ds2 w2 hbind2 hne2 hnarrow2
    have hdefs2 : w2.defaults = ds2 := (bind_ok hbind2).2.1
    refine executeBound hbind2 s args hdup ?_
    intro i hi
    have hok := hnarrow2 i hi
    unfold Wrapper.suppliedOk at hok
    unfold Wrapper.boundOk
    cases hs : w2.suppliedAt args i with
    | some v =>
      rw [hs] at hok
      exact hok
    | none =>
      rw [hdefs2]
      exact hne2

/-- Witness for C4 (Scenario C): `execute({})` and `execute({param1:5})`
fail with missing-argument errors on the no-defaults adapter (the latter
names `param2`), and the identical `execute({param1:5})` call succeeds once
the parameters are covered by the defaults `{param1:10, param2:20}`. -/
theorem claim4_witness :
    (∃ p, p ∈ wNoDefaults.paramNames ∧
      wNoDefaults.execute () [] = (.error (.missingArg p), (), 0)) ∧
    (∃ p, p ∈ wNoDefaults.paramNames ∧
      wNoDefaults.execute () [("param1", Value.vint 5)] =
        (.error (.missingArg p), (), 0)) ∧
    wNoDefaults.execute () [("param1", Value.vint 5)] =
      (.error (.missingArg "param2"), (), 0) ∧
    wNamedDefaults.execute () [("param1", Value.vint 5)] =
      (.ok (Value.vint 100), (), 1) := by
  have hbind : Wrapper.bind mulMethod true [] = .ok wNoDefaults := rfl
  have h1 := claim4_amended hbind () [] (by decide) (by decide)
    ⟨0, by decide, by decide⟩
  have h2 := claim4_amended hbind () [("param1", Value.vint 5)] (by decide)
    (by decide) ⟨1, by decide, by decide⟩
  refine ⟨h1.1, h2.1, by decide, ?_⟩
  have h3 := h2.2 [("param1", Value.vint 10), ("param2", Value.vint 20)]
    wNamedDefaults rfl (by decide) (by decide)
  rw [h3]
  decide

theorem suppliedAt_filter {w : Wrapper σ} {args : List (String × Value)}
    (i : Nat) :
    w.suppliedAt (args.filter (fun a => w.paramNames.contains a.1)) i =
      w.suppliedAt args i := by
  unfold Wrapper.suppliedAt
  cases hpn : w.paramNames[i]? with
  | none => rfl
  | some pname =>
    simp only []
    rw [find?_filter_eq (fun a => a.1 == pname)
      (fun a => w.paramNames.contains a.1) ?himp args]
    case himp =>
      intro a ha
      have ha2 : a.1 = pname := by simpa using ha
      have hmem : pname ∈ w.paramNames := by
        have hi : i < w.paramNames.length := by
          by_contra hge
          rw [List.getElem?_eq_none (by omega)] at hpn
          cases hpn
        rw [List.getElem?_eq_getElem hi] at hpn
        injection hpn with hpn2
        rw [← hpn2]
        exact List.getElem_mem _
      show w.paramNames.contains a.1 = true
      rw [ha2]
      simpa using hmem

/-- C10: `execute` never rejects an argument for its name: entries whose
names match no parameter are silently ignored — on a duplicate-free list in
which every position is bound, the call succeeds and returns exactly what the
same call without the unknown-named entries returns; and a zero-arity command
accepts any duplicate-free argument list, invoking its method with no
arguments. -/
theorem claim10_unknown_names_ignored {σ : Type} {m : Method σ} {op : Bool}
    {ds : List (String × Value)} {w : Wrapper σ}
    (hbind : Wrapper.bind m op ds = .ok w)
    (s : σ) (args : List (String × Value)) (hdup : dupFree args) :
    ((∀ i, i < w.meth.sig.length → w.boundOk args i) →
      w.execute s args =
        w.execute s (args.filter (fun a => w.paramNames.contains a.1)) ∧
      w.execute s args =
        (.ok (w.meth.run s (w.boundTuple args)).2,
         (w.meth.run s (w.boundTuple args)).1, 1)) ∧
    (w.meth.sig.length = 0 →
      w.execute s args = (.ok (w.meth.run s []).2, (w.meth.run s []).1, 1)) := by
  constructor
  · intro hall
    have hdup2 : dupFree (args.filter (fun a => w.paramNames.contains a.1)) := by
      have hnd := (findDup_none hdup).1
      have hsub : List.Sublist
          ((args.filter (fun a => w.paramNames.contains a.1)).map Prod.fst)
          (args.map Prod.fst) :=
        List.Sublist.map Prod.fst (List.filter_sublist args)
      exact findDup_eq_none (List.Nodup.sublist hsub hnd)
        (by intro x hx; cases hx)
    have hall2 : ∀ i, i < w.meth.sig.length →
        w.boundOk (args.filter (fun a => w.paramNames.contains a.1)) i := by
      intro i hi
      have hb := hall i hi
      unfold Wrapper.boundOk at hb ⊢
      rw [suppliedAt_filter]
      exact hb
    have hbt : w.boundTuple (args.filter (fun a => w.paramNames.contains a.1)) =
        w.boundTuple args := by
      unfold Wrapper.boundTuple
      apply List.map_congr_left
      intro i _
      rw [suppliedAt_filter]
    have h1 := executeBound hbind s args hdup hall
    have h2 := executeBound hbind s
      (args.filter (fun a => w.paramNames.contains a.1)) hdup2 hall2
    rw [hbt] at h2
    exact ⟨h1.trans h2.symm, h1⟩
  · intro hz
    have hdup2 : findDup args [] = none := hdup
    unfold Wrapper.execute
    rw [hdup2, if_pos hz]

/-- Witness for C10: the defaults adapter treats `{junk:"q", a:5}` exactly
like `{a:5}` (yielding 100), and the zero-arity adapter accepts a list of
unknown names, invoking its method with no arguments. -/
theorem claim10_witness :
    (wDefaults.execute () [("junk", Value.vstr "q"), ("a", Value.vint 5)] =
      wDefaults.execute ()
        ([("junk", Value.vstr "q"), ("a", Value.vint 5)].filter
          (fun a => wDefaults.paramNames.contains a.1)) ∧
     wDefaults.execute () [("junk", Value.vstr "q"), ("a", Value.vint 5)] =
       (.ok (Value.vint 100), (), 1)) ∧
    wZero.execute () [("junk", Value.vint 1), ("junk2", Value.vstr "q")] =
      (.ok (Value.vint 42), (), 1) := by
  have h := claim10_unknown_names_ignored
    (rfl : Wrapper.bind mulMethod true
      [("a", Value.vint 10), ("b", Value.vint 20)] = .ok wDefaults)
    () [("junk", Value.vstr "q"), ("a", Value.vint 5)] (by decide)
  have h2 := claim10_unknown_names_ignored
    (rfl : Wrapper.bind f0Method true [] = .ok wZero)
    () [("junk", Value.vint 1), ("junk2", Value.vstr "q")] (by decide)
  obtain ⟨heq, hok⟩ := h.1 (by decide)
  exact ⟨⟨heq, hok.trans (by decide)⟩, (h2.2 rfl).trans (by decide)⟩

end EngineWrapper
